import Mathlib

/-!
Verification of the farm-companion/farm-pipeline reconciliation pipeline
(`src/shops_pipeline.py`, `src/models.py`, `src/utils_geo.py`).

The Python source is shallowly embedded: strings are Lean `String`s
(character lists), floats are rationals `ℚ`, `Optional[T]` is `Option T`,
and Python truthiness of optional strings / floats is made explicit.
External effectful capabilities (geocoding HTTP responses, jsonschema
validation, the haversine float computation, the slugify library, the
geohash library, random choice) are parameters of the embedded functions.
-/

set_option maxHeartbeats 1000000

namespace FarmPipeline

/-! ## Python string helpers

`normalize_whitespace(s) = " ".join((s or "").split())` from
`shops_pipeline.py`, plus `str.upper` / `str.lower` / `str.strip` /
`str.replace(' ', '')` as used by the pipeline (modelled on ASCII).
-/

/-- Python whitespace characters recognised by `str.split()` (ASCII range). -/
def isPySpace (c : Char) : Bool :=
  c == ' ' || c == '\t' || c == '\n' || c == '\r' || c == '\x0b' || c == '\x0c'

/-- Accumulator-based worker for Python `str.split()`: `acc` is the current
word, reversed. -/
def pySplitAux : List Char → List Char → List (List Char)
  | [], acc => if acc = [] then [] else [acc.reverse]
  | c :: cs, acc =>
    if isPySpace c then
      (if acc = [] then pySplitAux cs [] else acc.reverse :: pySplitAux cs [])
    else
      pySplitAux cs (c :: acc)

/-- Python `str.split()` with no separator: split on whitespace runs,
dropping empty fields. -/
def pySplit (l : List Char) : List (List Char) :=
  pySplitAux l []

/-- Python `" ".join(words)`. -/
def joinWords : List (List Char) → List Char
  | [] => []
  | [w] => w
  | w :: ws => w ++ ' ' :: joinWords ws

/-- `normalize_whitespace` from `shops_pipeline.py`:
`" ".join((s or "").split())`. -/
def normalizeWs (s : String) : String :=
  ⟨joinWords (pySplit s.data)⟩

/-- Python `str.strip()`: drop leading and trailing whitespace. -/
def pyStrip (s : String) : String :=
  ⟨((s.data.dropWhile isPySpace).reverse.dropWhile isPySpace).reverse⟩

/-- The lowercase/uppercase ASCII letter pairs, used to model Python
`str.lower()` / `str.upper()` on the ASCII range. -/
def casePairs : List (Char × Char) :=
  [('a', 'A'), ('b', 'B'), ('c', 'C'), ('d', 'D'), ('e', 'E'), ('f', 'F'),
   ('g', 'G'), ('h', 'H'), ('i', 'I'), ('j', 'J'), ('k', 'K'), ('l', 'L'),
   ('m', 'M'), ('n', 'N'), ('o', 'O'), ('p', 'P'), ('q', 'Q'), ('r', 'R'),
   ('s', 'S'), ('t', 'T'), ('u', 'U'), ('v', 'V'), ('w', 'W'), ('x', 'X'),
   ('y', 'Y'), ('z', 'Z')]

/-- ASCII model of Python `str.upper` on one character. -/
def asciiUpper (c : Char) : Char :=
  match casePairs.find? (fun p => p.1 == c) with
  | some p => p.2
  | none => c

/-- ASCII model of Python `str.lower` on one character. -/
def asciiLower (c : Char) : Char :=
  match casePairs.find? (fun p => p.2 == c) with
  | some p => p.1
  | none => c

/-- Python `str.upper()`. -/
def pyUpper (s : String) : String := ⟨s.data.map asciiUpper⟩

/-- Python `str.lower()`. -/
def pyLower (s : String) : String := ⟨s.data.map asciiLower⟩

/-- Python `str.replace(' ', '')`: remove all space characters. -/
def stripSpaces (s : String) : String := ⟨s.data.filter (fun c => c != ' ')⟩

/-- A word produced by `str.split()`: nonempty and whitespace-free
(every field of `pySplit` has this shape). -/
def goodWord (w : List Char) : Prop :=
  w ≠ [] ∧ ∀ c ∈ w, isPySpace c = false

/-! ## Data model (`models.py`) -/

/-- `Location` from `models.py`. Floats are modelled as rationals. -/
structure Location where
  lat : Option ℚ := none
  lng : Option ℚ := none
  address : String := ""
  city : String := ""
  county : String := ""
  postcode : String := ""
deriving DecidableEq

/-- `Contact` from `models.py`. -/
structure Contact where
  phone : Option String := none
  email : Option String := none
  website : Option String := none
deriving DecidableEq

/-- `OpeningHour` from `models.py` (fields `day`/`open`/`close`; the latter
two are renamed `opens`/`closes` because `open` is a Lean keyword). -/
structure OpeningHour where
  day : String
  opens : Option String := none
  closes : Option String := none
deriving DecidableEq

/-- `FarmShop` from `models.py`. -/
structure FarmShop where
  id : String := ""
  name : String
  slug : String
  location : Location
  contact : Contact := {}
  offerings : List String := []
  hours : List OpeningHour := []
  description : Option String := none
  images : List String := []
  verified : Bool := false
  adsenseEligible : Bool := true
  updatedAt : String := ""
  rating : Option ℚ := none
  user_ratings_total : Option Int := none
  price_level : Option Int := none
  place_id : Option String := none
  types : List String := []
deriving DecidableEq

/-- Python truthiness of an `Optional[str]`: `None` and `""` are falsy. -/
def optStrTruthy : Option String → Bool
  | none => false
  | some s => s != ""

/-- Python truthiness of an `Optional[float]`: `None` and `0.0` are falsy. -/
def optRatTruthy : Option ℚ → Bool
  | none => false
  | some x => x != 0

/-- `FarmShop.key_name_postcode` from `models.py`:
`' '.join(name.lower().split()) + '::' + postcode.replace(' ','').upper()`. -/
def key_name_postcode (s : FarmShop) : String :=
  let pc := pyUpper (stripSpaces s.location.postcode)
  let nm := normalizeWs (pyLower s.name)
  nm ++ "::" ++ pc

/-! ## Deduplication phase 1 (`dedupe_shops`, first pass) -/

/-- The `has_coordinates` term of the phase-1 richness score:
`int(bool(x.location.lat))` in the source (truthiness of `lat` alone). -/
def coordTerm (x : FarmShop) : Nat :=
  if optRatTruthy x.location.lat then 1 else 0

/-- The `has_website` term: `int(bool(x.contact.website))`. -/
def webTerm (x : FarmShop) : Nat :=
  if optStrTruthy x.contact.website then 1 else 0

/-- The `has_email` term: `int(bool(x.contact.email))`. -/
def emailTerm (x : FarmShop) : Nat :=
  if optStrTruthy x.contact.email then 1 else 0

/-- The phase-1 richness `score` lambda from `dedupe_shops`. -/
def score (x : FarmShop) : Nat :=
  coordTerm x + webTerm x + emailTerm x

/-- Lookup in an insertion-ordered association list (Python `dict` access). -/
def alookup (k : String) : List (String × FarmShop) → Option FarmShop
  | [] => none
  | p :: rest => if p.1 = k then some p.2 else alookup k rest

/-- In-place value replacement at a key (Python `seen[k] = b` keeps the
key's insertion position). -/
def aupdate (k : String) (v : FarmShop) :
    List (String × FarmShop) → List (String × FarmShop)
  | [] => []
  | p :: rest => if p.1 = k then (p.1, v) :: rest else p :: aupdate k v rest

/-- One iteration of the phase-1 loop of `dedupe_shops`. -/
def dedupe1Step (seen : List (String × FarmShop)) (s : FarmShop) :
    List (String × FarmShop) :=
  match alookup (key_name_postcode s) seen with
  | none => seen ++ [(key_name_postcode s, s)]
  | some a => if score a < score s then aupdate (key_name_postcode s) s seen else seen

/-- Phase 1 of `dedupe_shops`: exact-key merge, returning `list(seen.values())`
in key insertion order. -/
def dedupe1 (shops : List FarmShop) : List FarmShop :=
  (shops.foldl dedupe1Step []).map Prod.snd

/-- The group of input records sharing normalized key `k`. -/
def groupOf (shops : List FarmShop) (k : String) : List FarmShop :=
  shops.filter (fun s => key_name_postcode s == k)

/-- Maximum richness score of a list of records. -/
def maxScore : List FarmShop → Nat
  | [] => 0
  | s :: rest => Nat.max (score s) (maxScore rest)

/-- The first record of a group achieving the group's maximal richness score
(the survivor the specification describes for phase 1). -/
def firstBest (g : List FarmShop) : Option FarmShop :=
  g.find? (fun s => decide (maxScore g ≤ score s))

/-- The greedy phase-1 survivor of a nonempty group, accumulator form
(mirrors how the loop carries the current winner). -/
def pickAcc (a : FarmShop) : List FarmShop → FarmShop
  | [] => a
  | s :: rest => pickAcc (if score a < score s then s else a) rest

/-- The greedy phase-1 survivor of a group. -/
def greedyBest : List FarmShop → Option FarmShop
  | [] => none
  | s :: rest => some (pickAcc s rest)

/-! ## Deduplication phase 2 (`dedupe_shops`, second pass)

The float haversine computation (`utils_geo.haversine_km`) is abstracted
as an oracle `hav : ℚ → ℚ → ℚ → ℚ → ℚ` taking `lat1 lon1 lat2 lon2`.
-/

/-- Code-point lexicographic `<` on character lists (Python string `<`). -/
def charListLt : List Char → List Char → Bool
  | _, [] => false
  | [], _ :: _ => true
  | a :: as, b :: bs =>
    if a.toNat < b.toNat then true
    else if b.toNat < a.toNat then false
    else charListLt as bs

/-- Python tuple `<` on the phase-2 sort key `(s.name.lower(), s.location.postcode)`. -/
def key2Lt (s t : FarmShop) : Bool :=
  charListLt (pyLower s.name).data (pyLower t.name).data ||
    ((pyLower s.name).data == (pyLower t.name).data &&
      charListLt s.location.postcode.data t.location.postcode.data)

/-- Non-strict comparison used by the stable insertion model of Python's
stable ascending `list.sort`. -/
def key2Le (s t : FarmShop) : Bool := !key2Lt t s

/-- Insert `x` after all already-placed elements `y` with `le y x`
(stability: equal keys keep first-seen order). -/
def insertStable (le : FarmShop → FarmShop → Bool) (x : FarmShop) :
    List FarmShop → List FarmShop
  | [] => [x]
  | y :: ys => if le y x then y :: insertStable le x ys else x :: y :: ys

/-- A stable ascending sort, extensionally equal to Python `list.sort(key=...)`. -/
def stableSort (le : FarmShop → FarmShop → Bool) (l : List FarmShop) :
    List FarmShop :=
  l.foldl (fun acc x => insertStable le x acc) []

/-- Truthiness conjunction `r.location.lat and r.location.lng` used by the
phase-2 guard. -/
def coordsTruthy (s : FarmShop) : Bool :=
  optRatTruthy s.location.lat && optRatTruthy s.location.lng

/-- The haversine call of the phase-2 guard,
`haversine_km(r.location.lat, r.location.lng, s.location.lat, s.location.lng)`;
only evaluated under `coordsTruthy`, so the `getD 0` defaults are never hit. -/
def shopDist (hav : ℚ → ℚ → ℚ → ℚ → ℚ) (r s : FarmShop) : ℚ :=
  hav (r.location.lat.getD 0) (r.location.lng.getD 0)
    (s.location.lat.getD 0) (s.location.lng.getD 0)

/-- The `0.25` km threshold of the phase-2 guard, as the rational `1/4`
(written as a raw `Rat` literal so that it evaluates in the kernel). -/
def quarterKm : ℚ :=
  { num := 1, den := 4, den_nz := by decide, reduced := by decide }

/-- The full phase-2 duplicate test between a kept record `r` and the
current record `s`. -/
def proxMatch (hav : ℚ → ℚ → ℚ → ℚ → ℚ) (r s : FarmShop) : Bool :=
  (pyLower r.name == pyLower s.name) && coordsTruthy r && coordsTruthy s &&
    decide (shopDist hav r s < quarterKm)

/-- The contact backfill performed when `s` is found to duplicate the kept
record `r`: fill `r`'s empty `website`/`email`/`phone` from `s`. -/
def backfill (r s : FarmShop) : FarmShop :=
  { r with contact :=
      { website :=
          if optStrTruthy s.contact.website && !optStrTruthy r.contact.website
          then s.contact.website else r.contact.website
        email :=
          if optStrTruthy s.contact.email && !optStrTruthy r.contact.email
          then s.contact.email else r.contact.email
        phone :=
          if optStrTruthy s.contact.phone && !optStrTruthy r.contact.phone
          then s.contact.phone else r.contact.phone } }

/-- Scan the kept list for the first record matching `s`; on a match,
replace it by its backfilled version (the duplicate `s` is discarded). -/
def mergeFirst (hav : ℚ → ℚ → ℚ → ℚ → ℚ) (s : FarmShop) :
    List FarmShop → Option (List FarmShop)
  | [] => none
  | r :: rest =>
    if proxMatch hav r s then some (backfill r s :: rest)
    else match mergeFirst hav s rest with
      | none => none
      | some rest2 => some (r :: rest2)

/-- One iteration of the phase-2 loop: merge into the first matching kept
record, else append. -/
def scanStep (hav : ℚ → ℚ → ℚ → ℚ → ℚ) (result : List FarmShop)
    (s : FarmShop) : List FarmShop :=
  match mergeFirst hav s result with
  | none => result ++ [s]
  | some res => res

/-- Phase 2 of `dedupe_shops`: sort by `(name.lower(), postcode)` then do
the greedy proximity-merge scan. -/
def dedupe2 (hav : ℚ → ℚ → ℚ → ℚ → ℚ) (shops : List FarmShop) :
    List FarmShop :=
  (stableSort key2Le shops).foldl (scanStep hav) []

/-- `dedupe_shops` from `shops_pipeline.py`: phase 1 then phase 2. -/
def dedupe_shops (hav : ℚ → ℚ → ℚ → ℚ → ℚ) (shops : List FarmShop) :
    List FarmShop :=
  dedupe2 hav (dedupe1 shops)

/-! ## Geospatial output (`to_geojson`)

The geohash library call is abstracted as an oracle
`gh : ℚ → ℚ → Nat → String`.
-/

/-- One GeoJSON feature as built by `to_geojson`: a point geometry plus the
enumerated properties. -/
structure Feature where
  geometry : List ℚ
  propId : String
  propName : String
  propSlug : String
  propAddress : String
  propCounty : String
  propPostcode : String
  propWebsite : Option String
  propGeohash : String
deriving DecidableEq

/-- The feature built for a shop with coordinates `la`/`lo`:
`coordinates = [lng, lat]`, `geohash(lat, lng, 7)`. -/
def featureOf (gh : ℚ → ℚ → Nat → String) (s : FarmShop) (la lo : ℚ) :
    Feature :=
  { geometry := [lo, la]
    propId := s.id
    propName := s.name
    propSlug := s.slug
    propAddress := s.location.address
    propCounty := s.location.county
    propPostcode := s.location.postcode
    propWebsite := s.contact.website
    propGeohash := gh la lo 7 }

/-- `to_geojson` from `shops_pipeline.py`: skip records whose `lat` or `lng`
`is None`, emit one feature for each of the rest. -/
def to_geojson (gh : ℚ → ℚ → Nat → String) : List FarmShop → List Feature
  | [] => []
  | s :: rest =>
    match s.location.lat, s.location.lng with
    | some la, some lo => featureOf gh s la lo :: to_geojson gh rest
    | none, _ => to_geojson gh rest
    | _, none => to_geojson gh rest

/-! ## Geo resolver (`geocode_missing`)

A Nominatim interaction for one record is abstracted as a response value at
the granularity the loop body can observe. The `try` block runs two separate
assignment statements, `s.location.lat = float(data[0]["lat"])` then
`s.location.lng = float(data[0]["lon"])`, so an exception raised by the
second one is caught only after the first has already mutated the record —
the model carries that partial-assignment path explicitly.
-/

/-- Outcome of one geocoding HTTP call for one record:
the request or `resp.json()` raised (`exn`); the JSON was not a list
(`notList`); the list was empty (`emptyList`); the first item's `"lat"`
access or its float conversion raised, before any assignment
(`firstBadLat`); the first item's `lat` parsed and was assigned but the
subsequent `"lon"` access or conversion raised (`firstLatOnly`); or both
coordinates of the first item parsed (`firstOk`). -/
inductive NomResp where
  | exn : NomResp
  | notList : NomResp
  | emptyList : NomResp
  | firstBadLat : NomResp
  | firstLatOnly : ℚ → NomResp
  | firstOk : ℚ → ℚ → NomResp
deriving DecidableEq

/-- The failure/zero-result modes in which the loop body performs no
assignment at all. -/
def isFailureOrEmpty : NomResp → Bool
  | .exn => true
  | .notList => true
  | .emptyList => true
  | .firstBadLat => true
  | .firstLatOnly _ => false
  | .firstOk _ _ => false

/-- The failure modes named by the specification (network error, malformed
response, zero results): every outcome except a fully parsed first result. -/
def respFailed : NomResp → Bool
  | .firstOk _ _ => false
  | _ => true

/-- The body of the `geocode_missing` loop for one record: skip records with
both coordinates present; otherwise run the `try` block — the `lat`
assignment lands before a `lon` failure is caught, so `firstLatOnly` leaves
the record with `lat` set and `lng` untouched. -/
def geoStep (resp : NomResp) (s : FarmShop) : FarmShop :=
  if s.location.lat.isSome && s.location.lng.isSome then s
  else
    match resp with
    | .exn => s
    | .notList => s
    | .emptyList => s
    | .firstBadLat => s
    | .firstLatOnly la => { s with location := { s.location with lat := some la } }
    | .firstOk la lo =>
      { s with location := { s.location with lat := some la, lng := some lo } }

/-- Worker for `geocode_missing`, threading the call index. -/
def geocodeMissingAux (resp : Nat → NomResp) (i : Nat) :
    List FarmShop → List FarmShop
  | [] => []
  | s :: rest => geoStep (resp i) s :: geocodeMissingAux resp (i + 1) rest

/-- `geocode_missing` from `shops_pipeline.py`, with the network abstracted
as the per-record response sequence `resp`. -/
def geocodeMissing (resp : Nat → NomResp) (shops : List FarmShop) :
    List FarmShop :=
  geocodeMissingAux resp 0 shops

/-! ## Schema validation and emission (`main`, lines 194–214) -/

/-- The per-record validation loop of `main`: `jsonschema.validate` either
succeeds or raises, abstracted as the predicate `valid`; each raise is caught
and only skips the `ok += 1`. -/
def validCount (valid : FarmShop → Bool) (data : List FarmShop) : Nat :=
  data.foldl (fun ok item => if valid item then ok + 1 else ok) 0

/-- The observable result of the validation-and-emission tail of `main`:
the reported valid count, the emitted flat list (written before/independently
of validation outcomes), and the emitted geospatial artifact. -/
def runValidationAndEmit (gh : ℚ → ℚ → Nat → String)
    (valid : FarmShop → Bool) (shops : List FarmShop) :
    Nat × List FarmShop × List Feature :=
  (validCount valid shops, shops, to_geojson gh shops)

/-! ## Normalizer (`map_to_shops`)

The slugify library is abstracted as an oracle `slug : String → String`;
the `id` default factory and `updatedAt` default factory are the
injectable `theId` / `now` values.
-/

/-- A raw candidate item as consumed by `map_to_shops`. -/
structure RawContact where
  phone : Option String := none
  email : Option String := none
  website : Option String := none
deriving DecidableEq

/-- The candidate-record dictionary fields read by `map_to_shops`. -/
structure RawItem where
  name : String := ""
  address : String := ""
  county : String := ""
  postcode : String := ""
  contact : RawContact := {}
deriving DecidableEq

/-- The `Contact(**{k:v for k,v in contact.items() if v})` filter: a falsy
value (absent or empty) is dropped. -/
def filtOpt : Option String → Option String
  | none => none
  | some v => if v = "" then none else some v

/-- The body of the `map_to_shops` loop for one item. -/
def mapToShop (slug : String → String) (theId : String) (now : String)
    (it : RawItem) : FarmShop :=
  let name0 := pyStrip (normalizeWs it.name)
  let name := if name0 = "" then "Farm shop" else name0
  let addr := normalizeWs it.address
  let county := normalizeWs it.county
  let pc := pyUpper (normalizeWs it.postcode)
  { id := theId
    name := name
    slug := slug (name ++ "-" ++ (if pc != "" then pc else if county != "" then county else "uk"))
    location := { address := addr, county := county, postcode := pc }
    contact :=
      { phone := filtOpt it.contact.phone
        email := filtOpt it.contact.email
        website := filtOpt it.contact.website }
    offerings := []
    updatedAt := now }

/-- `map_to_shops` from `shops_pipeline.py`, with injectable id source and
clock (`ids i` is the id generated for the `i`-th item). -/
def mapToShops (slug : String → String) (ids : Nat → String) (now : String) :
    Nat → List RawItem → List FarmShop
  | _, [] => []
  | i, it :: rest => mapToShop slug (ids i) now it :: mapToShops slug ids now (i + 1) rest

/-- Reconstruct the raw field values of an already-normalized record, to
re-run the normalization mapping on them. -/
def toRaw (s : FarmShop) : RawItem :=
  { name := s.name
    address := s.location.address
    county := s.location.county
    postcode := s.location.postcode
    contact :=
      { phone := s.contact.phone
        email := s.contact.email
        website := s.contact.website } }

/-! ## Id generation (`models._rand_id`) -/

/-- The alphabet `'abcdefghijklmnopqrstuvwxyz0123456789'` of `_rand_id`. -/
def idAlphabet : List Char :=
  ['a', 'b', 'c', 'd', 'e', 'f', 'g', 'h', 'i', 'j', 'k', 'l', 'm',
   'n', 'o', 'p', 'q', 'r', 's', 't', 'u', 'v', 'w', 'x', 'y', 'z',
   '0', '1', '2', '3', '4', '5', '6', '7', '8', '9']

/-- `_rand_id` from `models.py`, with `random.choice` abstracted as the ten
drawn alphabet indices `f`. -/
def randId (f : Fin 10 → Fin 36) : String :=
  "farm_" ++ ⟨(List.finRange 10).map (fun i => idAlphabet.get ⟨(f i).val, (f i).isLt⟩)⟩

/-- A lowercase alphanumeric ASCII character. -/
def isLowerAlnum (c : Char) : Bool :=
  ('a' ≤ c && c ≤ 'z') || ('0' ≤ c && c ≤ '9')

/-- Modelled from the spec: the id format the specification states,
`shop_` followed by exactly ten lowercase alphanumeric characters. -/
def shopIdOk (s : String) : Bool :=
  s.data.take 5 == "shop_".data && (s.data.drop 5).length == 10 &&
    (s.data.drop 5).all isLowerAlnum

/-- The id format the code actually produces (and the `FarmShop.id` pydantic
pattern demands): `farm_` followed by exactly ten lowercase alphanumerics. -/
def farmIdOk (s : String) : Bool :=
  s.data.take 5 == "farm_".data && (s.data.drop 5).length == 10 &&
    (s.data.drop 5).all isLowerAlnum

/-! ## Sample data used by concrete witnesses -/

/-- A record with a website (phase-1 richness 1) and display-form postcode. -/
def sampleRich : FarmShop :=
  { name := "Bridge Farm Shop", slug := "bridge-farm-shop-ab1-2cd",
    location := { postcode := "AB1 2CD" },
    contact := { website := some "https://example.com" } }

/-- A record with the same normalized key as `sampleRich` (differently cased
and spaced) and no contact data (phase-1 richness 0). -/
def samplePoor : FarmShop :=
  { name := "Bridge  Farm   Shop", slug := "bridge-farm-shop-ab1-2cd",
    location := { postcode := "ab1 2cd" } }

/-- Distance oracle for the transitive-chaining scenario: 0 km between
latitude pairs (50,51) and (51,52), 1 km otherwise (longitudes ignored). -/
def havChain : ℚ → ℚ → ℚ → ℚ → ℚ := fun x _ z _ =>
  if (x = 50 ∧ z = 51) ∨ (x = 51 ∧ z = 50) ∨ (x = 51 ∧ z = 52) ∨ (x = 52 ∧ z = 51)
  then 0 else 1

/-- Chaining scenario, record A: latitude 50, middle sort key. -/
def chainA : FarmShop :=
  { name := "Valley Farm", slug := "valley-farm-b1",
    location := { lat := some 50, lng := some 1, postcode := "B1" } }

/-- Chaining scenario, record B: latitude 51, smallest sort key, so it is
scanned first and becomes the kept representative. -/
def chainB : FarmShop :=
  { name := "valley farm", slug := "valley-farm-a1",
    location := { lat := some 51, lng := some 1, postcode := "A1" } }

/-- Chaining scenario, record C: latitude 52, largest sort key. -/
def chainC : FarmShop :=
  { name := "VALLEY FARM", slug := "valley-farm-c1",
    location := { lat := some 52, lng := some 1, postcode := "C1" } }

/-- A kept record with a website but no email, for the backfill witness. -/
def sampleKept : FarmShop :=
  { name := "Hill Farm", slug := "hill-farm-x",
    location := { lat := some 2, lng := some 3, postcode := "X1 1XX" },
    contact := { website := some "https://kept.example" } }

/-- A duplicate with website, email and phone, for the backfill witness. -/
def sampleDup : FarmShop :=
  { name := "hill farm", slug := "hill-farm-y",
    location := { lat := some 2, lng := some 3, postcode := "Y1 1YY" },
    contact := { phone := some "01234", email := some "dup@example.com",
                 website := some "https://dup.example" } }

/-- A record whose latitude is exactly 0.0 (Python-falsy) though present. -/
def sampleZeroLat : FarmShop :=
  { name := "zero farm", slug := "zero-farm-a",
    location := { lat := some 0, lng := some 5, postcode := "Z1 1ZA" } }

/-- A same-named geolocated record scanned before `sampleZeroLat`. -/
def sampleOther : FarmShop :=
  { name := "Zero Farm", slug := "zero-farm-b",
    location := { lat := some 1, lng := some 1, postcode := "A1 1ZA" } }

/-- A record lacking both coordinates, for the geocode-failure witness. -/
def sampleNoCoord : FarmShop :=
  { name := "No Geo Farm", slug := "no-geo-farm",
    location := { address := "1 Lane", postcode := "N1 1NN" } }

/-! ## Lemmas: Python string helpers -/

theorem pySplitAux_good (l : List Char) :
    ∀ acc, (∀ c ∈ acc, isPySpace c = false) →
      ∀ w ∈ pySplitAux l acc, goodWord w := by
  induction l with
  | nil =>
    intro acc hacc w hw
    simp only [pySplitAux] at hw
    split at hw
    · simp at hw
    · next hne =>
      simp only [List.mem_singleton] at hw
      subst hw
      exact ⟨by simpa using hne, fun c hc => hacc c (List.mem_reverse.mp hc)⟩
  | cons c cs ih =>
    intro acc hacc w hw
    simp only [pySplitAux] at hw
    by_cases hc : isPySpace c
    · rw [if_pos hc] at hw
      split at hw
      · exact ih [] (by simp) w hw
      · next hne =>
        rcases List.mem_cons.mp hw with h | h
        · subst h
          exact ⟨by simpa using hne, fun d hd => hacc d (List.mem_reverse.mp hd)⟩
        · exact ih [] (by simp) w h
    · rw [if_neg hc] at hw
      refine ih (c :: acc) ?_ w hw
      intro d hd
      rcases List.mem_cons.mp hd with h | h
      · subst h; simpa using hc
      · exact hacc d h

theorem pySplit_good (l : List Char) : ∀ w ∈ pySplit l, goodWord w :=
  pySplitAux_good l [] (by simp)

theorem pySplitAux_word (w : List Char) (hw : ∀ c ∈ w, isPySpace c = false) :
    ∀ rest acc, pySplitAux (w ++ rest) acc = pySplitAux rest (w.reverse ++ acc) := by
  induction w with
  | nil => intro rest acc; simp
  | cons c cs ih =>
    intro rest acc
    have hc : isPySpace c = false := hw c (by simp)
    calc pySplitAux ((c :: cs) ++ rest) acc
        = pySplitAux (cs ++ rest) (c :: acc) := by simp [pySplitAux, hc]
      _ = pySplitAux rest (cs.reverse ++ (c :: acc)) :=
          ih (fun d hd => hw d (by simp [hd])) rest (c :: acc)
      _ = pySplitAux rest ((c :: cs).reverse ++ acc) := by simp

theorem pySplit_joinWords (ws : List (List Char))
    (h : ∀ w ∈ ws, goodWord w) : pySplit (joinWords ws) = ws := by
  induction ws with
  | nil => rfl
  | cons w rest ih =>
    obtain ⟨hw1, hw2⟩ := h w (by simp)
    cases rest with
    | nil =>
      show pySplitAux (joinWords [w]) [] = [w]
      have h0 : joinWords [w] = w ++ [] := by simp [joinWords]
      rw [h0, pySplitAux_word w hw2 [] []]
      simp only [pySplitAux, List.append_nil]
      rw [if_neg (by simpa using hw1), List.reverse_reverse]
    | cons x rest2 =>
      show pySplitAux (joinWords (w :: x :: rest2)) [] = w :: x :: rest2
      have hjoin : joinWords (w :: x :: rest2) = w ++ ' ' :: joinWords (x :: rest2) := rfl
      rw [hjoin, pySplitAux_word w hw2 (' ' :: joinWords (x :: rest2)) [], List.append_nil]
      have h2 : pySplitAux (' ' :: joinWords (x :: rest2)) w.reverse
          = w.reverse.reverse :: pySplitAux (joinWords (x :: rest2)) [] := by
        show (if isPySpace ' ' then
                (if w.reverse = [] then pySplitAux (joinWords (x :: rest2)) []
                 else w.reverse.reverse :: pySplitAux (joinWords (x :: rest2)) [])
              else pySplitAux (joinWords (x :: rest2)) (' ' :: w.reverse)) = _
        rw [if_pos (by decide : isPySpace ' ' = true),
          if_neg (by simpa using hw1)]
      rw [h2, List.reverse_reverse]
      exact congrArg (w :: ·) (ih (fun v hv => h v (by simp [hv])))

theorem normalizeWs_idem (s : String) :
    normalizeWs (normalizeWs s) = normalizeWs s := by
  show (⟨joinWords (pySplit (joinWords (pySplit s.data)))⟩ : String) = _
  rw [pySplit_joinWords _ (pySplit_good s.data)]
  rfl

theorem joinWords_head_nonspace (ws : List (List Char))
    (h : ∀ w ∈ ws, goodWord w) (hne : ws ≠ []) :
    ∃ c t, joinWords ws = c :: t ∧ isPySpace c = false := by
  cases ws with
  | nil => exact absurd rfl hne
  | cons w rest =>
    obtain ⟨hw1, hw2⟩ := h w (by simp)
    cases w with
    | nil => exact absurd rfl hw1
    | cons c w2 =>
      cases rest with
      | nil => exact ⟨c, w2, rfl, hw2 c (by simp)⟩
      | cons x rest2 =>
        exact ⟨c, w2 ++ ' ' :: joinWords (x :: rest2), rfl, hw2 c (by simp)⟩

theorem joinWords_revhead_nonspace (ws : List (List Char))
    (h : ∀ w ∈ ws, goodWord w) (hne : ws ≠ []) :
    ∃ c t, (joinWords ws).reverse = c :: t ∧ isPySpace c = false := by
  induction ws with
  | nil => exact absurd rfl hne
  | cons w rest ih =>
    obtain ⟨hw1, hw2⟩ := h w (by simp)
    cases rest with
    | nil =>
      cases hr : w.reverse with
      | nil => exact absurd (by simpa using hr) hw1
      | cons c t =>
        refine ⟨c, t, by simpa [joinWords] using hr, ?_⟩
        have : c ∈ w := List.mem_reverse.mp (by rw [hr]; simp)
        exact hw2 c this
    | cons x rest2 =>
      obtain ⟨c, t, hct, hc⟩ := ih (fun v hv => h v (by simp [hv])) (by simp)
      refine ⟨c, t ++ ' ' :: w.reverse, ?_, hc⟩
      have : joinWords (w :: x :: rest2) = w ++ ' ' :: joinWords (x :: rest2) := rfl
      rw [this, List.reverse_append]
      simp [hct]

theorem pyStrip_normalizeWs (s : String) :
    pyStrip (normalizeWs s) = normalizeWs s := by
  have hgood := pySplit_good s.data
  by_cases hne : pySplit s.data = []
  · simp [normalizeWs, pyStrip, hne, joinWords]
  · obtain ⟨c, t, hct, hc⟩ := joinWords_head_nonspace _ hgood hne
    obtain ⟨c2, t2, hct2, hc2⟩ := joinWords_revhead_nonspace _ hgood hne
    simp only [normalizeWs, pyStrip]
    congr 1
    rw [hct, List.dropWhile_cons_of_neg (by simp [hc]), ← hct, hct2,
      List.dropWhile_cons_of_neg (by simp [hc2]), ← hct2, List.reverse_reverse]

theorem asciiUpper_space (c : Char) : isPySpace (asciiUpper c) = isPySpace c := by
  unfold asciiUpper
  cases h : casePairs.find? (fun p => p.1 == c) with
  | none => rfl
  | some p =>
    have hp : p ∈ casePairs := List.mem_of_find?_eq_some h
    have hc : p.1 = c := by
      have := List.find?_some h
      simpa using this
    have key : ∀ q ∈ casePairs, isPySpace q.1 = false ∧ isPySpace q.2 = false := by decide
    rw [← hc, (key p hp).1, (key p hp).2]

theorem asciiUpper_idem (c : Char) :
    asciiUpper (asciiUpper c) = asciiUpper c := by
  unfold asciiUpper
  cases h : casePairs.find? (fun p => p.1 == c) with
  | none => rw [h]
  | some p =>
    have hp : p ∈ casePairs := List.mem_of_find?_eq_some h
    have key : ∀ p2 ∈ casePairs, ∀ q ∈ casePairs, (q.1 == p2.2) = false := by decide
    rw [List.find?_eq_none.mpr (fun q hq => by simp [key p hp q hq])]

theorem pySplitAux_map (f : Char → Char)
    (hf : ∀ c, isPySpace (f c) = isPySpace c) (l : List Char) :
    ∀ acc, pySplitAux (l.map f) (acc.map f) =
      (pySplitAux l acc).map (List.map f) := by
  induction l with
  | nil =>
    intro acc
    by_cases hacc : acc = []
    · subst hacc; rfl
    · simp only [List.map_nil, pySplitAux]
      rw [if_neg (by simpa using hacc), if_neg hacc]
      simp
  | cons c cs ih =>
    intro acc
    simp only [List.map_cons, pySplitAux, hf c]
    by_cases hc : isPySpace c
    · rw [if_pos hc, if_pos hc]
      by_cases hacc : acc = []
      · subst hacc
        simpa using ih []
      · rw [if_neg (by simpa using hacc), if_neg hacc]
        simp only [List.map_cons]
        rw [← List.map_reverse]
        exact congrArg _ (by simpa using ih [])
    · rw [if_neg hc, if_neg hc]
      exact ih (c :: acc)

theorem joinWords_map (f : Char → Char) (hsp : f ' ' = ' ') :
    ∀ ws, joinWords (ws.map (List.map f)) = (joinWords ws).map f := by
  intro ws
  induction ws with
  | nil => rfl
  | cons w rest ih =>
    cases rest with
    | nil => rfl
    | cons x rest2 =>
      show List.map f w ++ ' ' :: joinWords ((x :: rest2).map (List.map f)) = _
      rw [ih]
      show _ = List.map f (w ++ ' ' :: joinWords (x :: rest2))
      simp [hsp]

theorem normalizeWs_pyUpper (s : String) :
    normalizeWs (pyUpper s) = pyUpper (normalizeWs s) := by
  show (⟨joinWords (pySplit (s.data.map asciiUpper))⟩ : String) = _
  have h1 : pySplit (s.data.map asciiUpper)
      = (pySplit s.data).map (List.map asciiUpper) := by
    have := pySplitAux_map asciiUpper asciiUpper_space s.data []
    simpa [pySplit] using this
  rw [h1, joinWords_map asciiUpper (by decide)]
  rfl

theorem pyUpper_idem (s : String) : pyUpper (pyUpper s) = pyUpper s := by
  show (⟨(s.data.map asciiUpper).map asciiUpper⟩ : String) = _
  rw [List.map_map]
  have h : asciiUpper ∘ asciiUpper = asciiUpper := funext asciiUpper_idem
  rw [h]
  rfl

/-! ## Lemmas: phase-1 deduplication -/

/-- The embedded phase-2 threshold is the rational value of the source's
`0.25` km literal. -/
theorem quarterKm_eq : quarterKm = 1/4 := by
  have h : quarterKm = Rat.mk' 1 4 := rfl
  rw [h, Rat.mk'_eq_divInt, Rat.divInt_eq_div]
  norm_num

theorem maxScore_cons (s : FarmShop) (rest : List FarmShop) :
    maxScore (s :: rest) = Nat.max (score s) (maxScore rest) := rfl

theorem le_maxScore_of_mem {s : FarmShop} {g : List FarmShop} (h : s ∈ g) :
    score s ≤ maxScore g := by
  induction g with
  | nil => cases h
  | cons x rest ih =>
    rcases List.mem_cons.mp h with h1 | h1
    · subst h1; exact Nat.le_max_left _ _
    · exact le_trans (ih h1) (Nat.le_max_right _ _)

theorem pickAcc_of_max {rest : List FarmShop} {a : FarmShop}
    (h : maxScore rest ≤ score a) : pickAcc a rest = a := by
  induction rest generalizing a with
  | nil => rfl
  | cons s rest2 ih =>
    rw [maxScore_cons, Nat.max_le] at h
    show pickAcc (if score a < score s then s else a) rest2 = a
    rw [if_neg (Nat.not_lt.mpr h.1)]
    exact ih h.2

theorem pickAcc_beaten {rest : List FarmShop} {a : FarmShop}
    (h : score a < maxScore rest) :
    some (pickAcc a rest) = rest.find? (fun s => decide (maxScore rest ≤ score s)) := by
  induction rest generalizing a with
  | nil => simp [maxScore] at h
  | cons s rest2 ih =>
    rw [maxScore_cons] at h
    show some (pickAcc (if score a < score s then s else a) rest2) = _
    by_cases hs : score a < score s
    · rw [if_pos hs]
      by_cases h2 : maxScore rest2 ≤ score s
      · rw [pickAcc_of_max h2]
        have hmax : Nat.max (score s) (maxScore rest2) = score s := Nat.max_eq_left h2
        rw [List.find?_cons_of_pos _ (by simp [maxScore_cons, hmax])]
      · push_neg at h2
        have hmax : Nat.max (score s) (maxScore rest2) = maxScore rest2 :=
          Nat.max_eq_right (le_of_lt h2)
        rw [List.find?_cons_of_neg _ (by simp [maxScore_cons, hmax]; exact h2)]
        rw [maxScore_cons, hmax]
        exact ih h2
    · rw [if_neg hs]
      push_neg at hs
      have h2 : score a < maxScore rest2 := by
        rcases Nat.lt_or_ge (score a) (maxScore rest2) with h3 | h3
        · exact h3
        · exfalso
          have h4 : Nat.max (score s) (maxScore rest2) ≤ score a :=
            Nat.max_le.mpr ⟨hs, h3⟩
          exact absurd (Nat.lt_of_lt_of_le h h4) (Nat.lt_irrefl _)
      have hmax : Nat.max (score s) (maxScore rest2) = maxScore rest2 :=
        Nat.max_eq_right (le_of_lt (lt_of_le_of_lt hs h2))
      rw [List.find?_cons_of_neg _
        (by simp [maxScore_cons, hmax]; exact lt_of_le_of_lt hs h2)]
      rw [maxScore_cons, hmax]
      exact ih h2

theorem greedyBest_eq_firstBest (g : List FarmShop) :
    greedyBest g = firstBest g := by
  cases g with
  | nil => rfl
  | cons s rest =>
    show some (pickAcc s rest) = firstBest (s :: rest)
    by_cases h : maxScore rest ≤ score s
    · rw [pickAcc_of_max h]
      have hmax : maxScore (s :: rest) = score s := by
        rw [maxScore_cons]; exact Nat.max_eq_left h
      unfold firstBest
      rw [List.find?_cons_of_pos _ (by simp [hmax])]
    · push_neg at h
      have hmax : maxScore (s :: rest) = maxScore rest := by
        rw [maxScore_cons]; exact Nat.max_eq_right (le_of_lt h)
      unfold firstBest
      rw [List.find?_cons_of_neg _ (by simp [hmax]; exact h)]
      simp only [hmax]
      exact pickAcc_beaten h

theorem greedyBest_append_singleton (g : List FarmShop) (s : FarmShop) :
    greedyBest (g ++ [s]) =
      match greedyBest g with
      | none => some s
      | some a => if score a < score s then some s else some a := by
  cases g with
  | nil => rfl
  | cons x rest =>
    show some (pickAcc x (rest ++ [s])) = _
    have key : ∀ (l : List FarmShop) (a : FarmShop),
        pickAcc a (l ++ [s]) = if score (pickAcc a l) < score s then s else pickAcc a l := by
      intro l
      induction l with
      | nil => intro a; rfl
      | cons y l2 ih =>
        intro a
        show pickAcc (if score a < score y then y else a) (l2 ++ [s]) = _
        rw [ih]
        rfl
    rw [key rest x]
    show _ = if score (pickAcc x rest) < score s then some s else some (pickAcc x rest)
    by_cases hlt : score (pickAcc x rest) < score s
    · rw [if_pos hlt, if_pos hlt]
    · rw [if_neg hlt, if_neg hlt]

theorem alookup_append_singleton (k k2 : String) (v : FarmShop)
    (seen : List (String × FarmShop)) :
    alookup k (seen ++ [(k2, v)]) =
      match alookup k seen with
      | some w => some w
      | none => if k2 = k then some v else none := by
  induction seen with
  | nil => rfl
  | cons p rest ih =>
    show (if p.1 = k then some p.2 else alookup k (rest ++ [(k2, v)])) = _
    by_cases hp : p.1 = k
    · rw [if_pos hp]
      have h1 : alookup k (p :: rest) = some p.2 := by
        show (if p.1 = k then some p.2 else alookup k rest) = _
        rw [if_pos hp]
      rw [h1]
    · rw [if_neg hp, ih]
      have h1 : alookup k (p :: rest) = alookup k rest := by
        show (if p.1 = k then some p.2 else alookup k rest) = _
        rw [if_neg hp]
      rw [h1]

theorem alookup_aupdate_self (k : String) (v : FarmShop)
    (seen : List (String × FarmShop)) {a : FarmShop}
    (h : alookup k seen = some a) :
    alookup k (aupdate k v seen) = some v := by
  induction seen with
  | nil => cases h
  | cons p rest ih =>
    by_cases hp : p.1 = k
    · show alookup k (if p.1 = k then (p.1, v) :: rest else p :: aupdate k v rest) = _
      rw [if_pos hp]
      show (if p.1 = k then some v else alookup k rest) = _
      rw [if_pos hp]
    · show alookup k (if p.1 = k then (p.1, v) :: rest else p :: aupdate k v rest) = _
      rw [if_neg hp]
      show (if p.1 = k then some p.2 else alookup k (aupdate k v rest)) = _
      rw [if_neg hp]
      refine ih ?_
      simpa [alookup, if_neg hp] using h

theorem alookup_aupdate_ne (k k2 : String) (v : FarmShop)
    (seen : List (String × FarmShop)) (h : k2 ≠ k) :
    alookup k (aupdate k2 v seen) = alookup k seen := by
  induction seen with
  | nil => rfl
  | cons p rest ih =>
    by_cases hp : p.1 = k2
    · have h1 : aupdate k2 v (p :: rest) = (p.1, v) :: rest := by
        show (if p.1 = k2 then (p.1, v) :: rest else p :: aupdate k2 v rest) = _
        rw [if_pos hp]
      rw [h1]
      have hk : ¬ p.1 = k := by rw [hp]; exact h
      show (if p.1 = k then some v else alookup k rest) = _
      rw [if_neg hk]
      show _ = (if p.1 = k then some p.2 else alookup k rest)
      rw [if_neg hk]
    · have h1 : aupdate k2 v (p :: rest) = p :: aupdate k2 v rest := by
        show (if p.1 = k2 then (p.1, v) :: rest else p :: aupdate k2 v rest) = _
        rw [if_neg hp]
      rw [h1]
      show (if p.1 = k then some p.2 else alookup k (aupdate k2 v rest)) = _
      rw [ih]
      rfl

theorem keys_aupdate (k : String) (v : FarmShop)
    (seen : List (String × FarmShop)) :
    (aupdate k v seen).map Prod.fst = seen.map Prod.fst := by
  induction seen with
  | nil => rfl
  | cons p rest ih =>
    show ((if p.1 = k then (p.1, v) :: rest else p :: aupdate k v rest)).map Prod.fst = _
    by_cases hp : p.1 = k
    · rw [if_pos hp]
      simp
    · rw [if_neg hp]
      show p.1 :: (aupdate k v rest).map Prod.fst = _
      rw [ih]
      simp

theorem mem_aupdate {k : String} {v : FarmShop}
    {seen : List (String × FarmShop)} {q : String × FarmShop}
    (h : q ∈ aupdate k v seen) : q ∈ seen ∨ q = (k, v) := by
  induction seen with
  | nil => cases h
  | cons p rest ih =>
    by_cases hp : p.1 = k
    · rw [show aupdate k v (p :: rest) = (p.1, v) :: rest from by
        show (if p.1 = k then (p.1, v) :: rest else _) = _; rw [if_pos hp]] at h
      rcases List.mem_cons.mp h with h1 | h1
      · right; rw [h1, hp]
      · left; exact List.mem_cons_of_mem _ h1
    · rw [show aupdate k v (p :: rest) = p :: aupdate k v rest from by
        show (if p.1 = k then (p.1, v) :: rest else _) = _; rw [if_neg hp]] at h
      rcases List.mem_cons.mp h with h1 | h1
      · left; rw [h1]; exact List.mem_cons_self _ _
      · rcases ih h1 with h2 | h2
        · left; exact List.mem_cons_of_mem _ h2
        · right; exact h2

theorem alookup_eq_none (k : String) (seen : List (String × FarmShop)) :
    alookup k seen = none ↔ k ∉ seen.map Prod.fst := by
  induction seen with
  | nil => simp [alookup]
  | cons p rest ih =>
    show (if p.1 = k then some p.2 else alookup k rest) = none ↔ _
    by_cases hp : p.1 = k
    · rw [if_pos hp]
      simp [hp]
    · rw [if_neg hp]
      simp only [List.map_cons, List.mem_cons]
      rw [ih]
      constructor
      · intro h1 h2
        rcases h2 with h2 | h2
        · exact hp h2.symm
        · exact h1 h2
      · intro h1 h2
        exact h1 (Or.inr h2)

theorem greedyBest_eq_none {g : List FarmShop} (h : greedyBest g = none) :
    g = [] := by
  cases g with
  | nil => rfl
  | cons s rest => exact absurd h (by simp [greedyBest])

theorem dedupe1_invariant (shops : List FarmShop) :
    (∀ p ∈ shops.foldl dedupe1Step [], key_name_postcode p.2 = p.1) ∧
    ((shops.foldl dedupe1Step []).map Prod.fst).Nodup ∧
    (∀ k, alookup k (shops.foldl dedupe1Step [])
      = greedyBest (groupOf shops k)) := by
  induction shops using List.reverseRecOn with
  | nil => exact ⟨by simp, by simp, fun k => rfl⟩
  | append_singleton l s ih =>
    obtain ⟨ha, hb, hc⟩ := ih
    have hfold : (l ++ [s]).foldl dedupe1Step []
        = dedupe1Step (l.foldl dedupe1Step []) s := by
      rw [List.foldl_append]
      rfl
    have hgroup : ∀ k, groupOf (l ++ [s]) k
        = groupOf l k ++ (if key_name_postcode s = k then [s] else []) := by
      intro k
      simp only [groupOf, List.filter_append, List.filter_singleton]
      congr 1
      by_cases hk : key_name_postcode s = k
      · simp [Bool.cond_eq_ite, hk]
      · simp [Bool.cond_eq_ite, hk]
    have hmatch : dedupe1Step (l.foldl dedupe1Step []) s
        = match alookup (key_name_postcode s) (l.foldl dedupe1Step []) with
          | none => l.foldl dedupe1Step [] ++ [(key_name_postcode s, s)]
          | some a =>
            if score a < score s
            then aupdate (key_name_postcode s) s (l.foldl dedupe1Step [])
            else l.foldl dedupe1Step [] := rfl
    cases halo : alookup (key_name_postcode s) (l.foldl dedupe1Step []) with
    | none =>
      have hstep : dedupe1Step (l.foldl dedupe1Step []) s
          = l.foldl dedupe1Step [] ++ [(key_name_postcode s, s)] := by
        rw [hmatch, halo]
      rw [hfold, hstep]
      have hnotin : key_name_postcode s ∉ (l.foldl dedupe1Step []).map Prod.fst :=
        (alookup_eq_none _ _).mp halo
      refine ⟨?_, ?_, ?_⟩
      · intro p hp
        rcases List.mem_append.mp hp with h1 | h1
        · exact ha p h1
        · rw [List.mem_singleton.mp h1]
      · rw [List.map_append]
        refine List.Nodup.append hb (by simp) ?_
        intro x hx hx2
        simp only [List.map_cons, List.map_nil, List.mem_singleton] at hx2
        subst hx2
        exact hnotin hx
      · intro k
        rw [alookup_append_singleton, hgroup k]
        by_cases hk : key_name_postcode s = k
        · subst hk
          have hgl : groupOf l (key_name_postcode s) = [] := by
            apply greedyBest_eq_none
            rw [← hc (key_name_postcode s)]
            exact halo
          rw [halo, hgl]
          simp [greedyBest, pickAcc]
        · rw [show (if key_name_postcode s = k then [s] else []) = ([] : List FarmShop)
            from if_neg hk, List.append_nil, ← hc k]
          cases h2 : alookup k (l.foldl dedupe1Step []) with
          | none => exact if_neg hk
          | some w => rfl
    | some a =>
      by_cases hscore : score a < score s
      · have hstep : dedupe1Step (l.foldl dedupe1Step []) s
            = aupdate (key_name_postcode s) s (l.foldl dedupe1Step []) := by
          rw [hmatch, halo]
          exact if_pos hscore
        rw [hfold, hstep]
        refine ⟨?_, ?_, ?_⟩
        · intro p hp
          rcases mem_aupdate hp with h1 | h1
          · exact ha p h1
          · rw [h1]
        · rw [keys_aupdate]
          exact hb
        · intro k
          rw [hgroup k]
          by_cases hk : key_name_postcode s = k
          · subst hk
            rw [if_pos rfl, alookup_aupdate_self _ _ _ halo,
              greedyBest_append_singleton, ← hc _, halo]
            simp [hscore]
          · rw [alookup_aupdate_ne _ _ _ _ hk, if_neg hk, List.append_nil]
            exact hc k
      · have hstep : dedupe1Step (l.foldl dedupe1Step []) s
            = l.foldl dedupe1Step [] := by
          rw [hmatch, halo]
          exact if_neg hscore
        rw [hfold, hstep]
        refine ⟨ha, hb, ?_⟩
        intro k
        rw [hgroup k]
        by_cases hk : key_name_postcode s = k
        · subst hk
          rw [if_pos rfl, halo, greedyBest_append_singleton, ← hc _, halo]
          simp [hscore]
        · rw [if_neg hk, List.append_nil]
          exact hc k

theorem filter_key_eq_alookup (seen : List (String × FarmShop))
    (ha : ∀ p ∈ seen, key_name_postcode p.2 = p.1)
    (hb : (seen.map Prod.fst).Nodup) (k : String) :
    (seen.map Prod.snd).filter (fun v => key_name_postcode v == k)
      = (alookup k seen).toList := by
  induction seen with
  | nil => rfl
  | cons p rest ih =>
    have hkey : key_name_postcode p.2 = p.1 := ha p (by simp)
    have hb2 : (rest.map Prod.fst).Nodup := (List.nodup_cons.mp hb).2
    have hnotin : p.1 ∉ rest.map Prod.fst := (List.nodup_cons.mp hb).1
    by_cases hp : p.1 = k
    · have hcond : (key_name_postcode p.2 == k) = true := by
        simp [hkey, hp]
      have hrest : (rest.map Prod.snd).filter (fun v => key_name_postcode v == k)
          = [] := by
        rw [List.filter_eq_nil_iff]
        intro v hv
        obtain ⟨q, hq, hqv⟩ := List.mem_map.mp hv
        have hq1 : key_name_postcode q.2 = q.1 := ha q (by simp [hq])
        rw [← hqv, hq1]
        intro habs
        have hq2 : q.1 = k := by simpa using habs
        have hk_notin : k ∉ rest.map Prod.fst := hp ▸ hnotin
        exact hk_notin (hq2 ▸ List.mem_map_of_mem Prod.fst hq)
      have halo2 : alookup k (p :: rest) = some p.2 := by
        show (if p.1 = k then some p.2 else alookup k rest) = _
        rw [if_pos hp]
      rw [halo2]
      show ((p.2 :: rest.map Prod.snd).filter (fun v => key_name_postcode v == k))
        = (some p.2).toList
      rw [List.filter_cons, if_pos hcond, hrest]
      rfl
    · have hcond : (key_name_postcode p.2 == k) = false := by
        simp [hkey, hp]
      have halo2 : alookup k (p :: rest) = alookup k rest := by
        show (if p.1 = k then some p.2 else alookup k rest) = _
        rw [if_neg hp]
      rw [halo2]
      show ((p.2 :: rest.map Prod.snd).filter (fun v => key_name_postcode v == k))
        = (alookup k rest).toList
      rw [List.filter_cons, if_neg (by simp [hcond]),
        ih (fun q hq => ha q (by simp [hq])) hb2]


theorem exists_max_mem (g : List FarmShop) (h : g ≠ []) :
    ∃ t ∈ g, maxScore g ≤ score t := by
  induction g with
  | nil => exact absurd rfl h
  | cons s rest ih =>
    by_cases h2 : maxScore rest ≤ score s
    · exact ⟨s, by simp, by
        rw [maxScore_cons]; exact Nat.max_le.mpr ⟨Nat.le_refl _, h2⟩⟩
    · push_neg at h2
      have hrest : rest ≠ [] := by
        intro habs
        rw [habs] at h2
        exact absurd h2 (by simp [maxScore])
      obtain ⟨t, ht, htm⟩ := ih hrest
      refine ⟨t, by simp [ht], ?_⟩
      rw [maxScore_cons]
      exact Nat.max_le.mpr ⟨le_of_lt (lt_of_lt_of_le h2 htm), htm⟩

/-- C1: in Deduplicator phase 1, each normalized-key group has exactly one
survivor: the first record (in input order) achieving the group's maximal
richness score `has_coordinates + has_website + has_email`; ties keep the
first-seen record, and the survivor is an unmodified input record (no field
of a dropped record is merged into it). -/
theorem claim_C1 (shops : List FarmShop) (k : String) :
    (dedupe1 shops).filter (fun v => key_name_postcode v == k)
      = (firstBest (groupOf shops k)).toList
    ∧ (∀ v ∈ dedupe1 shops, v ∈ shops)
    ∧ (groupOf shops k ≠ [] →
        ((dedupe1 shops).filter (fun v => key_name_postcode v == k)).length = 1) := by
  obtain ⟨ha, hb, hc⟩ := dedupe1_invariant shops
  have hfilter : ∀ k2, (dedupe1 shops).filter (fun v => key_name_postcode v == k2)
      = (alookup k2 (shops.foldl dedupe1Step [])).toList :=
    fun k2 => filter_key_eq_alookup _ ha hb k2
  have hmain : (dedupe1 shops).filter (fun v => key_name_postcode v == k)
      = (firstBest (groupOf shops k)).toList := by
    rw [hfilter k, hc k, greedyBest_eq_firstBest]
  have hsub : ∀ v ∈ dedupe1 shops, v ∈ shops := by
    intro v hv
    have h1 : v ∈ (dedupe1 shops).filter
        (fun w => key_name_postcode w == key_name_postcode v) :=
      List.mem_filter.mpr ⟨hv, by simp⟩
    rw [hfilter _, hc _, greedyBest_eq_firstBest] at h1
    cases hfb : firstBest (groupOf shops (key_name_postcode v)) with
    | none =>
      rw [hfb] at h1
      cases h1
    | some w =>
      rw [hfb] at h1
      have hw : v = w := by simpa using h1
      subst hw
      have hfb2 : (groupOf shops (key_name_postcode v)).find?
          (fun s => decide (maxScore (groupOf shops (key_name_postcode v)) ≤ score s))
          = some v := hfb
      have hmem : v ∈ groupOf shops (key_name_postcode v) :=
        List.mem_of_find?_eq_some hfb2
      exact List.mem_of_mem_filter hmem
  refine ⟨hmain, hsub, ?_⟩
  intro hne
  obtain ⟨t, ht, htm⟩ := exists_max_mem _ hne
  have hsome : ((groupOf shops k).find?
      (fun s => decide (maxScore (groupOf shops k) ≤ score s))).isSome :=
    List.find?_isSome.mpr ⟨t, ht, by simpa using htm⟩
  obtain ⟨w, hw⟩ := Option.isSome_iff_exists.mp hsome
  have hw2 : firstBest (groupOf shops k) = some w := hw
  rw [hmain, hw2]
  rfl

/-- C1 witness: for two same-key records where the second is richer, phase 1
keeps exactly one record for that key. -/
theorem claim_C1_witness :
    groupOf [samplePoor, sampleRich] (key_name_postcode sampleRich) ≠ []
    ∧ ((dedupe1 [samplePoor, sampleRich]).filter
        (fun v => key_name_postcode v == key_name_postcode sampleRich)).length = 1 :=
  ⟨by decide,
    (claim_C1 [samplePoor, sampleRich] (key_name_postcode sampleRich)).2.2 (by decide)⟩

/-- C2: after phase 1 no two surviving records share the normalized key, and
the key is exactly the lowercased whitespace-collapsed name paired (via the
separator) with the uppercased space-stripped postcode. -/
theorem claim_C2 (shops : List FarmShop) :
    (dedupe1 shops).Pairwise (fun a b => key_name_postcode a ≠ key_name_postcode b)
    ∧ ∀ s : FarmShop, key_name_postcode s
        = normalizeWs (pyLower s.name) ++ "::" ++ pyUpper (stripSpaces s.location.postcode) := by
  obtain ⟨ha, hb, _⟩ := dedupe1_invariant shops
  refine ⟨?_, fun s => rfl⟩
  have h1 : (dedupe1 shops).map key_name_postcode
      = (shops.foldl dedupe1Step []).map Prod.fst := by
    show ((shops.foldl dedupe1Step []).map Prod.snd).map key_name_postcode = _
    rw [List.map_map]
    exact List.map_congr_left (fun p hp => ha p hp)
  have h2 : ((dedupe1 shops).map key_name_postcode).Nodup := by
    rw [h1]
    exact hb
  exact List.pairwise_map.mp h2

/-- C3: for some three same-named geolocated records where the A–B and B–C
distances are under the 0.25 km threshold but A–C is not, the greedy phase-2
scan merges all three into a single surviving record (chaining through B).
The float haversine computation is abstracted as a symmetric distance oracle
satisfying exactly the claimed inequalities. -/
theorem claim_C3 :
    ∃ (hav : ℚ → ℚ → ℚ → ℚ → ℚ) (A B C : FarmShop),
      (∀ x y z w, hav x y z w = hav z w x y)
      ∧ pyLower A.name = pyLower B.name ∧ pyLower B.name = pyLower C.name
      ∧ coordsTruthy A = true ∧ coordsTruthy B = true ∧ coordsTruthy C = true
      ∧ shopDist hav A B < 1/4 ∧ shopDist hav B C < 1/4
      ∧ 1/4 ≤ shopDist hav A C
      ∧ (dedupe2 hav [A, B, C]).length = 1 := by
  refine ⟨havChain, chainA, chainB, chainC, ?_, by decide, by decide, by decide,
    by decide, by decide, ?_, ?_, ?_, by decide⟩
  · intro x y z w
    simp only [havChain]
    have hiff : ((x = 50 ∧ z = 51) ∨ (x = 51 ∧ z = 50) ∨ (x = 51 ∧ z = 52) ∨ (x = 52 ∧ z = 51))
        ↔ ((z = 50 ∧ x = 51) ∨ (z = 51 ∧ x = 50) ∨ (z = 51 ∧ x = 52) ∨ (z = 52 ∧ x = 51)) := by
      tauto
    rw [if_congr hiff rfl rfl]
  · rw [show shopDist havChain chainA chainB = 0 from by decide]
    norm_num
  · rw [show shopDist havChain chainB chainC = 0 from by decide]
    norm_num
  · rw [show shopDist havChain chainA chainC = 1 from by decide]
    norm_num

/-- C4: the phase-2 merge backfill fills only the kept record's empty
`website`/`email`/`phone` fields from the duplicate, never overwrites a
populated contact field, and leaves every other field of the kept record
unchanged. -/
theorem claim_C4 (r s : FarmShop) :
    (optStrTruthy r.contact.website = true →
      (backfill r s).contact.website = r.contact.website)
    ∧ (optStrTruthy r.contact.email = true →
      (backfill r s).contact.email = r.contact.email)
    ∧ (optStrTruthy r.contact.phone = true →
      (backfill r s).contact.phone = r.contact.phone)
    ∧ (optStrTruthy r.contact.website = false → optStrTruthy s.contact.website = true →
      (backfill r s).contact.website = s.contact.website)
    ∧ (optStrTruthy r.contact.email = false → optStrTruthy s.contact.email = true →
      (backfill r s).contact.email = s.contact.email)
    ∧ (optStrTruthy r.contact.phone = false → optStrTruthy s.contact.phone = true →
      (backfill r s).contact.phone = s.contact.phone)
    ∧ (backfill r s).id = r.id ∧ (backfill r s).name = r.name
    ∧ (backfill r s).slug = r.slug ∧ (backfill r s).location = r.location
    ∧ (backfill r s).offerings = r.offerings ∧ (backfill r s).hours = r.hours
    ∧ (backfill r s).description = r.description ∧ (backfill r s).images = r.images
    ∧ (backfill r s).verified = r.verified
    ∧ (backfill r s).adsenseEligible = r.adsenseEligible
    ∧ (backfill r s).updatedAt = r.updatedAt ∧ (backfill r s).rating = r.rating
    ∧ (backfill r s).user_ratings_total = r.user_ratings_total
    ∧ (backfill r s).price_level = r.price_level
    ∧ (backfill r s).place_id = r.place_id ∧ (backfill r s).types = r.types :=
  ⟨fun h => by simp [backfill, h],
    fun h => by simp [backfill, h],
    fun h => by simp [backfill, h],
    fun h1 h2 => by simp [backfill, h1, h2],
    fun h1 h2 => by simp [backfill, h1, h2],
    fun h1 h2 => by simp [backfill, h1, h2],
    rfl, rfl, rfl, rfl, rfl, rfl, rfl, rfl, rfl, rfl, rfl, rfl, rfl, rfl, rfl, rfl⟩

/-- C4 witness: a populated website survives a merge untouched while an
empty email is filled from the duplicate, and the location is unchanged. -/
theorem claim_C4_witness :
    optStrTruthy sampleKept.contact.website = true
    ∧ (backfill sampleKept sampleDup).contact.website = sampleKept.contact.website
    ∧ optStrTruthy sampleKept.contact.email = false
    ∧ optStrTruthy sampleDup.contact.email = true
    ∧ (backfill sampleKept sampleDup).contact.email = sampleDup.contact.email
    ∧ (backfill sampleKept sampleDup).location = sampleKept.location :=
  ⟨by decide, (claim_C4 sampleKept sampleDup).1 (by decide), by decide, by decide,
    (claim_C4 sampleKept sampleDup).2.2.2.2.1 (by decide) (by decide), by decide⟩

theorem coordsTruthy_false_of_zero {s : FarmShop}
    (h : s.location.lat = some 0 ∨ s.location.lng = some 0) :
    coordsTruthy s = false := by
  rcases h with h | h
  · simp [coordsTruthy, optRatTruthy, h]
  · simp [coordsTruthy, optRatTruthy, h]

theorem mergeFirst_none (hav : ℚ → ℚ → ℚ → ℚ → ℚ) (s : FarmShop)
    (res : List FarmShop) (h : ∀ r ∈ res, proxMatch hav r s = false) :
    mergeFirst hav s res = none := by
  induction res with
  | nil => rfl
  | cons r rest ih =>
    show (if proxMatch hav r s then some (backfill r s :: rest)
          else match mergeFirst hav s rest with
            | none => none
            | some rest2 => some (r :: rest2)) = none
    rw [if_neg (by simp [h r (by simp)]), ih (fun q hq => h q (by simp [hq]))]

theorem mergeFirst_mem_preserve (hav : ℚ → ℚ → ℚ → ℚ → ℚ) (x : FarmShop) :
    ∀ {res res2 : List FarmShop}, mergeFirst hav x res = some res2 →
      ∀ {s : FarmShop}, s ∈ res → proxMatch hav s x = false → s ∈ res2 := by
  intro res
  induction res with
  | nil => intro res2 hm; cases hm
  | cons r rest ih =>
    intro res2 hm s hs hpm
    have hm2 : (if proxMatch hav r x then some (backfill r x :: rest)
          else match mergeFirst hav x rest with
            | none => none
            | some rest2 => some (r :: rest2)) = some res2 := hm
    by_cases hr : proxMatch hav r x = true
    · rw [if_pos hr] at hm2
      have hres : res2 = backfill r x :: rest := (Option.some_inj.mp hm2).symm
      subst hres
      rcases List.mem_cons.mp hs with h1 | h1
      · exact absurd (h1 ▸ hpm) (by simp [hr])
      · exact List.mem_cons_of_mem _ h1
    · rw [if_neg hr] at hm2
      cases hrec : mergeFirst hav x rest with
      | none => rw [hrec] at hm2; cases hm2
      | some rest2 =>
        rw [hrec] at hm2
        have hres : res2 = r :: rest2 := (Option.some_inj.mp hm2).symm
        subst hres
        rcases List.mem_cons.mp hs with h1 | h1
        · exact h1 ▸ List.mem_cons_self _ _
        · exact List.mem_cons_of_mem _ (ih hrec h1 hpm)

theorem scan_preserves (hav : ℚ → ℚ → ℚ → ℚ → ℚ) (s : FarmShop)
    (hpm : ∀ r, proxMatch hav r s = false ∧ proxMatch hav s r = false) :
    ∀ (l acc : List FarmShop), (s ∈ acc ∨ s ∈ l) →
      s ∈ l.foldl (scanStep hav) acc := by
  intro l
  induction l with
  | nil =>
    intro acc h
    rcases h with h | h
    · exact h
    · cases h
  | cons x rest ih =>
    intro acc h
    show s ∈ rest.foldl (scanStep hav) (scanStep hav acc x)
    rcases h with h | h
    · refine ih _ (Or.inl ?_)
      unfold scanStep
      cases hm : mergeFirst hav x acc with
      | none => exact List.mem_append_left _ h
      | some res => exact mergeFirst_mem_preserve hav x hm h (hpm x).2
    · rcases List.mem_cons.mp h with h1 | h1
      · subst h1
        refine ih _ (Or.inl ?_)
        unfold scanStep
        rw [mergeFirst_none hav s acc (fun r _ => (hpm r).1)]
        exact List.mem_append_right _ (by simp)
      · exact ih _ (Or.inr h1)

theorem mem_insertStable (le : FarmShop → FarmShop → Bool) (x s : FarmShop) :
    ∀ l : List FarmShop, (s = x ∨ s ∈ l) → s ∈ insertStable le x l := by
  intro l
  induction l with
  | nil =>
    intro h
    rcases h with h | h
    · simp [insertStable, h]
    · cases h
  | cons y ys ih =>
    intro h
    show s ∈ (if le y x then y :: insertStable le x ys else x :: y :: ys)
    by_cases hle : le y x = true
    · rw [if_pos hle]
      rcases h with h | h
      · exact List.mem_cons_of_mem _ (ih (Or.inl h))
      · rcases List.mem_cons.mp h with h2 | h2
        · simp [h2]
        · exact List.mem_cons_of_mem _ (ih (Or.inr h2))
    · rw [if_neg hle]
      rcases h with h | h
      · simp [h]
      · simp [h]

theorem mem_stableSort (le : FarmShop → FarmShop → Bool) (s : FarmShop) :
    ∀ (l acc : List FarmShop), (s ∈ acc ∨ s ∈ l) →
      s ∈ l.foldl (fun a x => insertStable le x a) acc := by
  intro l
  induction l with
  | nil =>
    intro acc h
    rcases h with h | h
    · exact h
    · cases h
  | cons x rest ih =>
    intro acc h
    show s ∈ rest.foldl (fun a x => insertStable le x a) (insertStable le x acc)
    rcases h with h | h
    · exact ih _ (Or.inl (mem_insertStable le x s acc (Or.inr h)))
    · rcases List.mem_cons.mp h with h1 | h1
      · exact ih _ (Or.inl (mem_insertStable le x s acc (Or.inl h1)))
      · exact ih _ (Or.inr h1)

/-- C10: a coordinate equal to 0.0 is Python-falsy, so a record with
`lat = 0.0` contributes nothing to the phase-1 `has_coordinates` score term,
and a record with `lat = 0.0` or `lng = 0.0` never takes part in a phase-2
proximity merge (in either role) and therefore survives phase 2 unchanged,
whatever the distance oracle says. -/
theorem claim_C10 (hav : ℚ → ℚ → ℚ → ℚ → ℚ) (shops : List FarmShop)
    (s : FarmShop) :
    (s.location.lat = some 0 → coordTerm s = 0)
    ∧ ((s.location.lat = some 0 ∨ s.location.lng = some 0) →
        ∀ r, proxMatch hav r s = false ∧ proxMatch hav s r = false)
    ∧ ((s.location.lat = some 0 ∨ s.location.lng = some 0) → s ∈ shops →
        s ∈ dedupe2 hav shops) := by
  have hpm : (s.location.lat = some 0 ∨ s.location.lng = some 0) →
      ∀ r, proxMatch hav r s = false ∧ proxMatch hav s r = false := by
    intro h r
    have hct : coordsTruthy s = false := coordsTruthy_false_of_zero h
    exact ⟨by simp [proxMatch, hct], by simp [proxMatch, hct]⟩
  refine ⟨?_, hpm, ?_⟩
  · intro h
    simp [coordTerm, h, optRatTruthy]
  · intro h hmem
    unfold dedupe2
    exact scan_preserves hav s (hpm h) _ []
      (Or.inr (mem_stableSort key2Le s shops [] (Or.inr hmem)))

/-- C10 witness: a record with `lat = 0.0` scores a zero coordinate term and
survives phase 2 even though a same-named kept record sits at distance 0. -/
theorem claim_C10_witness :
    sampleZeroLat.location.lat = some 0
    ∧ coordTerm sampleZeroLat = 0
    ∧ sampleZeroLat ∈ dedupe2 (fun _ _ _ _ => 0) [sampleOther, sampleZeroLat] :=
  ⟨rfl, (claim_C10 (fun _ _ _ _ => 0) [sampleOther, sampleZeroLat] sampleZeroLat).1 rfl,
    (claim_C10 (fun _ _ _ _ => 0) [sampleOther, sampleZeroLat] sampleZeroLat).2.2
      (Or.inl rfl) (by decide)⟩

/-- C5: the geospatial output is exactly one feature per record with both
coordinates set (in list order), so its size equals the count of such
records and never exceeds the flat-list size; every feature's point
geometry is `[lng, lat]` for the coordinates of its source record. -/
theorem claim_C5 (gh : ℚ → ℚ → Nat → String) (shops : List FarmShop) :
    to_geojson gh shops
      = (shops.filter (fun s => s.location.lat.isSome && s.location.lng.isSome)).map
          (fun s => featureOf gh s (s.location.lat.getD 0) (s.location.lng.getD 0))
    ∧ (to_geojson gh shops).length
      = (shops.filter (fun s => s.location.lat.isSome && s.location.lng.isSome)).length
    ∧ (to_geojson gh shops).length ≤ shops.length
    ∧ (∀ f ∈ to_geojson gh shops, ∃ s, s ∈ shops ∧ ∃ la lo,
        s.location.lat = some la ∧ s.location.lng = some lo
        ∧ f.geometry = [lo, la]) := by
  have hmain : ∀ l : List FarmShop, to_geojson gh l
      = (l.filter (fun s => s.location.lat.isSome && s.location.lng.isSome)).map
          (fun s => featureOf gh s (s.location.lat.getD 0) (s.location.lng.getD 0)) := by
    intro l
    induction l with
    | nil => rfl
    | cons s rest ih =>
      cases hla : s.location.lat with
      | none => simp [to_geojson, hla, ih]
      | some la =>
        cases hlo : s.location.lng with
        | none => simp [to_geojson, hla, hlo, ih]
        | some lo => simp [to_geojson, hla, hlo, ih]
  refine ⟨hmain shops, ?_, ?_, ?_⟩
  · rw [hmain shops, List.length_map]
  · rw [hmain shops, List.length_map]
    exact List.length_filter_le _ _
  · intro f hf
    rw [hmain shops] at hf
    obtain ⟨s, hs, hfs⟩ := List.mem_map.mp hf
    obtain ⟨hmem, hcond⟩ := List.mem_filter.mp hs
    rw [Bool.and_eq_true] at hcond
    obtain ⟨la, hla⟩ := Option.isSome_iff_exists.mp hcond.1
    obtain ⟨lo, hlo⟩ := Option.isSome_iff_exists.mp hcond.2
    refine ⟨s, hmem, la, lo, hla, hlo, ?_⟩
    rw [← hfs]
    simp [featureOf, hla, hlo]

/-- C5 witness: with one geolocated and one non-geolocated record, the output
has exactly one feature whose geometry is `[lng, lat]` of the geolocated one. -/
theorem claim_C5_witness :
    (to_geojson (fun _ _ _ => "") [sampleKept, sampleNoCoord]).length = 1
    ∧ (featureOf (fun _ _ _ => "") sampleKept 2 3
        ∈ to_geojson (fun _ _ _ => "") [sampleKept, sampleNoCoord])
    ∧ (∃ s, s ∈ [sampleKept, sampleNoCoord] ∧ ∃ la lo,
        s.location.lat = some la ∧ s.location.lng = some lo
        ∧ (featureOf (fun _ _ _ => "") sampleKept 2 3).geometry = [lo, la]) :=
  ⟨by decide, by decide,
    (claim_C5 (fun _ _ _ => "") [sampleKept, sampleNoCoord]).2.2.2
      (featureOf (fun _ _ _ => "") sampleKept 2 3) (by decide)⟩

/-- C6 counterexample: the generated id never matches the claimed
`shop_`-prefixed format — at the all-zero draw the id is
`farm_aaaaaaaaaa`, which fails the `shop_` check. -/
theorem claim_C6_counterexample :
    shopIdOk (randId (fun _ => (⟨0, by decide⟩ : Fin 36))) = false := by
  decide

/-- C6 (amended): every auto-generated id matches `farm_` followed by
exactly ten lowercase alphanumeric characters, for every possible draw of
the ten alphabet indices. -/
theorem claim_C6_amended (f : Fin 10 → Fin 36) : farmIdOk (randId f) = true := by
  have hdata : (randId f).data
      = "farm_".data
        ++ (List.finRange 10).map (fun i => idAlphabet.get ⟨(f i).val, (f i).isLt⟩) := rfl
  have halnum : ∀ c ∈ idAlphabet, isLowerAlnum c = true := by decide
  unfold farmIdOk
  rw [hdata]
  rw [Bool.and_eq_true, Bool.and_eq_true]
  refine ⟨⟨?_, ?_⟩, ?_⟩
  · rfl
  · show (((("farm_".data
      ++ (List.finRange 10).map (fun i => idAlphabet.get ⟨(f i).val, (f i).isLt⟩))).drop 5).length == 10) = true
    have hdrop : ("farm_".data
        ++ (List.finRange 10).map (fun i => idAlphabet.get ⟨(f i).val, (f i).isLt⟩)).drop 5
        = (List.finRange 10).map (fun i => idAlphabet.get ⟨(f i).val, (f i).isLt⟩) := rfl
    rw [hdrop]
    simp
  · rw [List.all_eq_true]
    intro c hc
    have hdrop : ("farm_".data
        ++ (List.finRange 10).map (fun i => idAlphabet.get ⟨(f i).val, (f i).isLt⟩)).drop 5
        = (List.finRange 10).map (fun i => idAlphabet.get ⟨(f i).val, (f i).isLt⟩) := rfl
    rw [hdrop] at hc
    obtain ⟨i, _, hce⟩ := List.mem_map.mp hc
    rw [← hce]
    exact halnum _ (List.get_mem _ _ _)

theorem geocodeMissingAux_length (resp : Nat → NomResp) :
    ∀ (l : List FarmShop) (j : Nat),
      (geocodeMissingAux resp j l).length = l.length := by
  intro l
  induction l with
  | nil => intro j; rfl
  | cons s rest ih =>
    intro j
    show (geoStep (resp j) s :: geocodeMissingAux resp (j + 1) rest).length = _
    simp [ih (j + 1)]

theorem geocodeMissingAux_getElem (resp : Nat → NomResp) :
    ∀ (l : List FarmShop) (j i : Nat),
      (geocodeMissingAux resp j l)[i]? = (l[i]?).map (geoStep (resp (j + i))) := by
  intro l
  induction l with
  | nil => intro j i; simp [geocodeMissingAux]
  | cons s rest ih =>
    intro j i
    cases i with
    | zero => simp [geocodeMissingAux]
    | succ i2 =>
      show (geoStep (resp j) s :: geocodeMissingAux resp (j + 1) rest)[i2 + 1]? = _
      rw [List.getElem?_cons_succ, ih (j + 1) i2,
        show j + 1 + i2 = j + (i2 + 1) from by omega]
      simp [List.getElem?_cons_succ]

theorem geoStep_failure {r : NomResp} (hr : isFailureOrEmpty r = true)
    (s : FarmShop) : geoStep r s = s := by
  unfold geoStep
  split
  · rfl
  · cases r with
    | exn => rfl
    | notList => rfl
    | emptyList => rfl
    | firstBadLat => rfl
    | firstLatOnly la => exact absurd hr (by simp [isFailureOrEmpty])
    | firstOk la lo => exact absurd hr (by simp [isFailureOrEmpty])

theorem geoStep_lng_unchanged {r : NomResp} (hr : respFailed r = true)
    (s : FarmShop) : (geoStep r s).location.lng = s.location.lng := by
  unfold geoStep
  split
  · rfl
  · cases r with
    | exn => rfl
    | notList => rfl
    | emptyList => rfl
    | firstBadLat => rfl
    | firstLatOnly la => rfl
    | firstOk la lo => exact absurd hr (by simp [respFailed])

theorem geoStep_latOnly (la : ℚ) (s : FarmShop)
    (h : (s.location.lat.isSome && s.location.lng.isSome) = false) :
    geoStep (NomResp.firstLatOnly la) s
      = { s with location := { s.location with lat := some la } } := by
  unfold geoStep
  rw [if_neg (by simp [h])]

/-- C7 counterexample: the claim as stated fails on the partial-assignment
path. For the malformed response whose first item parses a `lat` but has no
usable `lon` (source: `[{"lat": "51.5"}]`-shaped data), the loop assigns
`lat` and then swallows the `lon` exception, so the record — which had both
coordinates unset — comes out with `lat` set. -/
theorem claim_C7_counterexample :
    respFailed (NomResp.firstLatOnly 51) = true
    ∧ sampleNoCoord.location.lat = none
    ∧ ((geocodeMissing (fun _ => NomResp.firstLatOnly 51) [sampleNoCoord])[0]?).map
        (fun t => t.location.lat) = some (some 51) := by
  refine ⟨rfl, rfl, ?_⟩
  decide

/-- C7 (amended): on a failed, malformed or zero-result geocoding call the
record is kept at its position and the loop covers every record (the failure
is not fatal); `lng` is left unchanged (hence stays unset) in every failure
mode; and the record is left entirely unchanged in every failure mode except
the one where the first result item's `lat` parses and the subsequent `lon`
access/conversion raises — there `lat` alone is set to the parsed value. -/
theorem claim_C7_amended (resp : Nat → NomResp) (shops : List FarmShop) :
    (geocodeMissing resp shops).length = shops.length
    ∧ (∀ i, i < shops.length → isFailureOrEmpty (resp i) = true →
        (geocodeMissing resp shops)[i]? = shops[i]?)
    ∧ (∀ i s, shops[i]? = some s → respFailed (resp i) = true →
        ((geocodeMissing resp shops)[i]?).map (fun t => t.location.lng)
          = some s.location.lng)
    ∧ (∀ i s la, shops[i]? = some s → resp i = NomResp.firstLatOnly la →
        (s.location.lat.isSome && s.location.lng.isSome) = false →
        (geocodeMissing resp shops)[i]?
          = some { s with location := { s.location with lat := some la } }) := by
  refine ⟨geocodeMissingAux_length resp shops 0, ?_, ?_, ?_⟩
  · intro i hi hfail
    show (geocodeMissingAux resp 0 shops)[i]? = shops[i]?
    rw [geocodeMissingAux_getElem resp shops 0 i, Nat.zero_add]
    cases hsi : shops[i]? with
    | none => rfl
    | some s => simp [geoStep_failure hfail]
  · intro i s hsi hfail
    show ((geocodeMissingAux resp 0 shops)[i]?).map (fun t => t.location.lng) = _
    rw [geocodeMissingAux_getElem resp shops 0 i, Nat.zero_add, hsi]
    simp [geoStep_lng_unchanged hfail]
  · intro i s la hsi hr hcond
    show (geocodeMissingAux resp 0 shops)[i]? = _
    rw [geocodeMissingAux_getElem resp shops 0 i, Nat.zero_add, hsi, hr]
    simp [geoStep_latOnly la s hcond]

/-- C7 witness: an exception on a record leaves it unchanged, and the
lat-parses-then-lon-fails response leaves the record with `lat` set and
`lng` still unset. -/
theorem claim_C7_witness :
    (geocodeMissing (fun _ => NomResp.exn) [sampleNoCoord])[0]?
      = ([sampleNoCoord] : List FarmShop)[0]?
    ∧ (geocodeMissing (fun _ => NomResp.firstLatOnly 51) [sampleNoCoord])[0]?
      = some { sampleNoCoord with
          location := { sampleNoCoord.location with lat := some 51 } } :=
  ⟨(claim_C7_amended (fun _ => NomResp.exn) [sampleNoCoord]).2.1 0
      (by decide) (by decide),
    (claim_C7_amended (fun _ => NomResp.firstLatOnly 51) [sampleNoCoord]).2.2.2 0
      sampleNoCoord 51 (by decide) rfl (by decide)⟩

theorem validCount_eq_filter_length (valid : FarmShop → Bool) :
    ∀ (l : List FarmShop) (n : Nat),
      l.foldl (fun ok item => if valid item then ok + 1 else ok) n
        = n + (l.filter valid).length := by
  intro l
  induction l with
  | nil => intro n; simp
  | cons x rest ih =>
    intro n
    show rest.foldl (fun ok item => if valid item then ok + 1 else ok)
        (if valid x then n + 1 else n) = _
    by_cases hx : valid x = true
    · rw [if_pos hx, ih, List.filter_cons, if_pos hx]
      simp
      omega
    · rw [if_neg hx, ih, List.filter_cons, if_neg hx]

/-- C8: the reported valid count is the number of records passing the check,
hence between 0 and the total; the emitted flat list is the full record set
regardless of validation outcomes; and a failing record in the middle
neither stops the count over the records after it nor drops out of the
emitted output. -/
theorem claim_C8 (gh : ℚ → ℚ → Nat → String) (valid : FarmShop → Bool)
    (shops : List FarmShop) :
    validCount valid shops = (shops.filter valid).length
    ∧ validCount valid shops ≤ shops.length
    ∧ (runValidationAndEmit gh valid shops).2.1 = shops
    ∧ (∀ l1 x l2, shops = l1 ++ x :: l2 → valid x = false →
        validCount valid shops = validCount valid l1 + validCount valid l2
        ∧ x ∈ (runValidationAndEmit gh valid shops).2.1) := by
  have hvc : ∀ l : List FarmShop, validCount valid l = (l.filter valid).length := by
    intro l
    show l.foldl (fun ok item => if valid item then ok + 1 else ok) 0 = _
    rw [validCount_eq_filter_length valid l 0, Nat.zero_add]
  refine ⟨hvc shops, ?_, rfl, ?_⟩
  · rw [hvc shops]
    exact List.length_filter_le _ _
  · intro l1 x l2 hsplit hx
    constructor
    · rw [hsplit, hvc _, hvc _, hvc _, List.filter_append, List.filter_cons,
        if_neg (by simp [hx]), List.length_append]
    · rw [show (runValidationAndEmit gh valid shops).2.1 = shops from rfl, hsplit]
      exact List.mem_append_right _ (List.mem_cons_self _ _)

/-- C8 witness: with a website-presence check, the record without a website
fails validation, the count still covers the other record, and the failing
record is still emitted. -/
theorem claim_C8_witness :
    optStrTruthy samplePoor.contact.website = false
    ∧ validCount (fun s => optStrTruthy s.contact.website) [sampleRich, samplePoor]
        = validCount (fun s => optStrTruthy s.contact.website) [sampleRich]
          + validCount (fun s => optStrTruthy s.contact.website) []
    ∧ samplePoor ∈ (runValidationAndEmit (fun _ _ _ => "")
        (fun s => optStrTruthy s.contact.website) [sampleRich, samplePoor]).2.1 :=
  ⟨by decide,
    ((claim_C8 (fun _ _ _ => "") (fun s => optStrTruthy s.contact.website)
        [sampleRich, samplePoor]).2.2.2 [sampleRich] samplePoor [] rfl (by decide)).1,
    ((claim_C8 (fun _ _ _ => "") (fun s => optStrTruthy s.contact.website)
        [sampleRich, samplePoor]).2.2.2 [sampleRich] samplePoor [] rfl (by decide)).2⟩

theorem filtOpt_idem (o : Option String) : filtOpt (filtOpt o) = filtOpt o := by
  cases o with
  | none => rfl
  | some v =>
    show filtOpt (if v = "" then none else some v)
      = (if v = "" then none else some v)
    by_cases hv : v = ""
    · rw [if_pos hv]
      rfl
    · rw [if_neg hv]
      show (if v = "" then none else some v) = some v
      rw [if_neg hv]

/-- C9: re-running the normalization mapping on the field values of an
already-normalized record reproduces the record field-for-field, excepting
only the (freshly generated) `id` and `updatedAt` fields, for every slugify
oracle and any id/clock injections. -/
theorem claim_C9 (slug : String → String) (id1 id2 now1 now2 : String)
    (it : RawItem) :
    mapToShop slug id2 now2 (toRaw (mapToShop slug id1 now1 it))
      = { mapToShop slug id1 now1 it with id := id2, updatedAt := now2 } := by
  have hFS : normalizeWs "Farm shop" = "Farm shop" := by decide
  have hFSne : ¬ ("Farm shop" = "") := by decide
  simp only [mapToShop, toRaw, pyStrip_normalizeWs]
  by_cases hn : normalizeWs it.name = ""
  · rw [if_pos hn]
    simp only [hFS, eq_false hFSne, ite_false, normalizeWs_idem,
      normalizeWs_pyUpper, pyUpper_idem, filtOpt_idem]
  · rw [if_neg hn]
    simp only [normalizeWs_idem, eq_false hn, ite_false,
      normalizeWs_pyUpper, pyUpper_idem, filtOpt_idem]

end FarmPipeline
